import Mathlib

/-!
# gout `dataflow/req.go`: request assembly, context resolution, binding, lifecycle

A shallow embedding of `src/dataflow/req.go`.  Go strings are Lean strings, the
`Req` receiver is threaded explicitly through a `State` that also records the
calls made to external collaborators (encoders, `net/url`, the transport,
decoders) in an event log, and a nil-pointer dereference or failed type
assertion is the distinguished outcome `Outcome.panic`.
-/

set_option autoImplicit false

namespace dataflow

/-! ## Go values used by the file -/

/-- Go error values: the sentinel `io.EOF`, and any other error named by its message.
A nil error is `none : Option Error`. -/
inductive Error where
  | EOF
  | other (msg : String)
deriving DecidableEq, Repr

/-- Byte sequences (buffer and body contents). -/
abbrev Bytes := List Nat

/-- Result of a Go call that either returns or panics. -/
inductive Outcome (α : Type) where
  | ret (a : α)
  | panic

/-- Go `len(s)` of a string: its length in bytes. -/
def len (s : String) : Nat := s.utf8ByteSize

/-- Go `strings.HasPrefix(s, pre)`. -/
def HasPrefix (s pre : String) : Bool := pre.data.isPrefixOf s.data

/-- Go `s[1:]`, used by `isString` only after a one-byte first character was matched. -/
def sliceFrom1 (s : String) : String := ⟨s.data.drop 1⟩

/-- A `context.Context` value: the background context, a context derived from a parent by
`context.WithTimeout` (the deadline is kept symbolically as the duration), or a context
supplied by the caller. -/
inductive Context where
  | Background
  | WithTimeout (parent : Context) (timeout : Int)
  | Caller (id : Nat)
deriving DecidableEq, Repr

/-- Go `http.Header` seen through its lookups: every key is mapped to its list of values
(an absent key has none). Keys are in canonical form. -/
abbrev Header := String → List String

/-- Go `Header.Get`: the first value of the key, or the empty string. -/
def Header.Get (h : Header) (k : String) : String := (h k).headD ""

/-- Go `Header.Set`: replaces the values of the key by the single value. -/
def Header.Set (h : Header) (k v : String) : Header := fun j => if j = k then [v] else h j

/-- Go `Header.Add`: appends the value to the values of the key. -/
def Header.Add (h : Header) (k v : String) : Header := fun j => if j = k then h j ++ [v] else h j

/-- Source lines 257-261: deletes every key of the header. -/
def clearHeader (_header : Header) : Header := fun _ => []

/-- Go `url.URL`, reduced to the components the file reads or writes. -/
structure URL where
  Scheme : String
  Host : String
  Path : String
  RawQuery : String
deriving DecidableEq, Repr

/-- Go `http.Cookie` by the sanitised "name=value" text that `AddCookie` writes. -/
structure Cookie where
  wire : String
deriving DecidableEq, Repr

/-- Go `http.Request`, reduced to what the file touches. `ctx = none` means that no context
was attached to the request with `WithContext`. The header map is taken to be allocated, as
`http.NewRequest` leaves it. -/
structure http.Request where
  Method : String
  URL : Option URL
  Header : Header
  Body : Bytes
  ctx : Option Context

/-- Go `(*http.Request).WithContext`. -/
def http.Request.WithContext (req : http.Request) (c : Context) : http.Request :=
  { req with ctx := some c }

/-- Go `(*http.Request).AddCookie`: appends the cookie to the `Cookie` header line. -/
def http.Request.AddCookie (req : http.Request) (c : Cookie) : http.Request :=
  let old := req.Header.Get "Cookie"
  if old ≠ "" then { req with Header := req.Header.Set "Cookie" (old ++ "; " ++ c.wire) }
  else { req with Header := req.Header.Set "Cookie" c.wire }

/-- A response body stream: the bytes not yet read, and the error (if any) that the stream
reports in place of end-of-file once they are exhausted. -/
structure Body where
  data : Bytes
  fail : Option Error
deriving DecidableEq, Repr

/-- Go `http.Response`, reduced to what the file touches. -/
structure http.Response where
  StatusCode : Int
  Header : Header
  Body : Body

/-- A body encoder (`encode.Encoder`): its `Name()`, the bytes its `Encode` writes to the
sink and the error `Encode` returns. -/
structure Encoder where
  Name : String
  written : Bytes
  err : Option Error
deriving DecidableEq, Repr

/-- Call of `Encode(w)` on a body encoder. -/
def Encoder.Encode (e : Encoder) (w : Bytes) : Bytes × Option Error := (w ++ e.written, e.err)

/-- A body decoder (`decode.Decoder`): an identity, how many unread bytes its `Decode`
reads from a body, and the error `Decode` returns. -/
structure Decoder where
  id : Nat
  consumed : Body → Nat
  err : Body → Option Error

/-- Call of `Decode(body)` on a body decoder. -/
def Decoder.Decode (d : Decoder) (b : Body) : Body × Option Error :=
  ({ b with data := b.data.drop (d.consumed b) }, d.err b)

/-- The view `reflect.ValueOf` gives of a value stored in an `interface{}`: a value of type
`string`, a value of a defined type whose kind is string, a pointer with its `Elem()`
(`Invalid` for a nil pointer), or a value of any other kind. -/
inductive Value where
  | String (s : String)
  | NamedString (s : String)
  | Ptr (elem : Value)
  | Invalid
  | Other (id : Nat)
deriving DecidableEq, Repr

/-- Modelled from the spec: `encode.NewQueryEncode` and `encode.Encode` on the query facet
are not in the source tree. The query facet is the stored value together with what the
query encoder yields for it: "otherwise run the encoder and obtain a query string", with
encode failures surfaced as an error. -/
structure QuerySource where
  value : Value
  encodeErr : Option Error
  encoded : String
deriving DecidableEq, Repr

/-- Modelled from the spec: `encode.NewFormEncode` and `encode.Encode` on the form facet are
not in the source tree. The form facet is taken with the bytes the multipart writer puts
into the body buffer while encoding, the error of the encoding, the bytes written by
`End()`, and the "content-type value" reported by `FormDataContentType()`. -/
structure FormSource where
  written : Bytes
  err : Option Error
  closing : Bytes
  contentType : String
deriving DecidableEq, Repr

/-- Modelled from the spec: `encode.NewHeaderEncode` and `encode.Encode` on the header facet
are not in the source tree. "Run the header encoder against the request's header sink":
the facet is taken with its effect on the header and the error of the encoding. -/
structure HeaderSource where
  apply : Header → Header
  err : Option Error

/-- Modelled from the spec: `decode.Header.Decode` is not in the source tree. "If a header
decoder is present, decode headers into it, failing fast on error": the facet is taken with
the error that decoding a given response header into it returns. -/
structure HeaderTarget where
  err : Header → Option Error

/-- The debug options `r.g.opt` (type `DebugOption`), reduced to the fields the file uses. -/
structure DebugOption where
  Debug : Bool
  Trace : Bool
  ReqBodyType : String
deriving DecidableEq, Repr

/-- The `Gout` object behind `r.g`: the embedded client (a handle) and the debug options.
Its `DataFlow` field is the request state itself. -/
structure Gout where
  Client : Nat
  opt : DebugOption
deriving DecidableEq, Repr

/-- Source lines 23-61: the request state. `callback` is a handle of the function value,
`httpCode` the address of the caller's status cell, `req` the preset request as supplied. -/
structure Req where
  method : String
  url : String
  host : String
  formEncode : Option FormSource
  bodyEncoder : Option Encoder
  bodyDecoder : Option Decoder
  headerEncode : Option HeaderSource
  headerDecode : Option HeaderTarget
  queryEncode : Option QuerySource
  httpCode : Option Nat
  g : Option Gout
  callback : Option Nat
  cookies : List Cookie
  timeout : Int
  index : Int
  timeoutIndex : Int
  ctxIndex : Int
  c : Option Context
  Err : Option Error
  req : Option http.Request

/-- The zero value of `Req`. -/
def Req.zero : Req :=
  { method := "", url := "", host := "", formEncode := none, bodyEncoder := none,
    bodyDecoder := none, headerEncode := none, headerDecode := none, queryEncode := none,
    httpCode := none, g := none, callback := none, cookies := [], timeout := 0, index := 0,
    timeoutIndex := 0, ctxIndex := 0, c := none, Err := none, req := none }

/-- Calls that leave the file, in the order they are made. -/
inductive Event where
  | bodyEncode (name : String)
  | queryEncode
  | formEncode
  | headerEncode
  | newRequest (method url : String) (body : Bytes)
  | urlParse (s : String)
  | withContext (c : Context)
  | transport (client : Nat) (req : http.Request)
  | headerDecode
  | debugPrint
  | callback (id : Nat) (code : Int)
  | bodyDecode (id : Nat) (seen : Bytes)
  | storeCode (cell : Nat) (code : Int)
  | discard (bytes : Bytes)
  | closeBody

/-- The request state together with the log of external calls made so far. -/
structure State where
  r : Req
  log : List Event

/-- The collaborators that are not in the file: `joinPaths` (elsewhere in the package),
`url.Parse`, `http.NewRequest`, the transport behind a client handle, the default client,
the callback functions behind their handles (they receive the status code and the
`DataFlow`, which is the request state), and the error of the debug printer. -/
structure Env where
  joinPaths : String → String → String
  urlParse : String → Except Error URL
  NewRequest : String → String → Bytes → Except Error http.Request
  clientDo : Nat → http.Request → Except Error http.Response
  DefaultClient : Nat
  runCallback : Nat → Int → Req → Req × Option Error
  printErr : http.Request → http.Response → Option Error

/-! ## The functions of `req.go` -/

/-- Source lines 68-81. -/
def Req.Reset (r : Req) : Req :=
  { r with
    index := 0
    Err := none
    cookies := []
    formEncode := none
    bodyEncoder := none
    bodyDecoder := none
    httpCode := none
    headerDecode := none
    headerEncode := none
    queryEncode := none
    c := none
    req := none }

/-- Source lines 83-98. The loop follows pointers; the type assertion `.(string)` panics
on a value of a defined string type. -/
def isString : Value → Outcome (String × Bool)
  | .Ptr e => isString e
  | .String s => .ret (if HasPrefix s "?" then sliceFrom1 s else s, true)
  | .NamedString _ => .panic
  | .Invalid => .ret ("", false)
  | .Other _ => .ret ("", false)

/-- Source lines 388-402. -/
def modifyURL (url : String) : String :=
  if HasPrefix url "https://" || HasPrefix url "http://" then url
  else if HasPrefix url ":" then "http://127.0.0.1" ++ url
  else if HasPrefix url "/" then "http://127.0.0.1" ++ url
  else "http://" ++ url

/-- Source lines 404-406. -/
def reqDef (method : String) (url : String) (g : Option Gout) : Req :=
  { Req.zero with method := method, url := modifyURL url, g := g }

/-- Source lines 263-268: returns the updated request state and the returned context. -/
def GetContext (r : Req) : Req × Option Context :=
  let r1 : Req :=
    if r.timeout > 0 ∧ r.timeoutIndex > r.ctxIndex then
      { r with c := some (Context.WithTimeout Context.Background r.timeout) }
    else r
  (r1, r1.c)

/-- The assignments `r.g.opt.ReqBodyType = t` of source lines 104, 106, 108; `r.g` is
dereferenced. -/
def setReqBodyType (r : Req) (t : String) : Outcome Req :=
  match r.g with
  | none => .panic
  | some g => .ret { r with g := some { g with opt := { g.opt with ReqBodyType := t } } }

/-- Source lines 100-112. -/
def addDefDebug (r : Req) : Outcome Req :=
  match r.bodyEncoder with
  | none => .ret r
  | some bodyType =>
    if bodyType.Name = "json" then setReqBodyType r "json"
    else if bodyType.Name = "xml" then setReqBodyType r "xml"
    else if bodyType.Name = "yaml" then setReqBodyType r "yaml"
    else .ret r

/-- Source lines 114-128. -/
def addContextType (r : Req) (req : http.Request) : http.Request :=
  match r.bodyEncoder with
  | none => req
  | some bodyType =>
    if bodyType.Name = "json" then
      { req with Header := req.Header.Add "Content-Type" "application/json" }
    else if bodyType.Name = "xml" then
      { req with Header := req.Header.Add "Content-Type" "application/xml" }
    else if bodyType.Name = "yaml" then
      { req with Header := req.Header.Add "Content-Type" "application/x-yaml" }
    else if bodyType.Name = "www-form" then
      { req with Header := req.Header.Add "Content-Type" "application/x-www-form-urlencoded" }
    else req

/-- Source lines 151-168, the host block of the deferred function of `selectRequest`.
`URL, err := url.Parse(urlStr)` declares a new `err` inside the block: on a parse failure
the error goes to `r.Err` only and the named result `err` of `selectRequest` stays nil. -/
def selectRequest_host (env : Env) (st : State) (req : http.Request) :
    (Option http.Request × Option Error) × State :=
  if len st.r.host > 0 then
    let urlStr := modifyURL (env.joinPaths "" st.r.host)
    let st1 : State := { st with log := st.log ++ [Event.urlParse urlStr] }
    match env.urlParse urlStr with
    | .error e => ((some req, none), { st1 with r := { st1.r with Err := some e } })
    | .ok U =>
      match req.URL with
      | none => ((some { req with URL := some U }, none), { st1 with r := { st1.r with Err := none } })
      | some u =>
        ((some { req with URL := some { u with Scheme := U.Scheme, Host := U.Host } }, none), st1)
  else ((some req, none), st)

/-- Source lines 139-168, the deferred function of `selectRequest` entered with a nil
`err` and the request `req`. -/
def selectRequest_deferred (env : Env) (st : State) (req : http.Request) :
    (Option http.Request × Option Error) × State :=
  let req1 : http.Request := if len st.r.method > 0 then { req with Method := st.r.method } else req
  if len st.r.url > 0 then
    let st1 : State := { st with log := st.log ++ [Event.urlParse st.r.url] }
    match env.urlParse st.r.url with
    | .error e => ((some { req1 with URL := none }, some e), { st1 with r := { st1.r with Err := some e } })
    | .ok u => selectRequest_host env st1 { req1 with URL := some u }
  else selectRequest_host env st req1

/-- Source lines 130-176. The body (lines 171-175) yields the preset request or the result
of `http.NewRequest`; the deferred function then runs on it. -/
def selectRequest (env : Env) (st : State) (body : Bytes) :
    (Option http.Request × Option Error) × State :=
  match st.r.req with
  | none =>
    let st1 : State :=
      { st with log := st.log ++ [Event.newRequest st.r.method st.r.url body] }
    match env.NewRequest st.r.method st.r.url body with
    | .error e => ((none, some e), { st1 with r := { st1.r with Err := some e } })
    | .ok req => selectRequest_deferred env st1 req
  | some req => selectRequest_deferred env st req

/-- Source lines 180-187 of `Request`: the body buffer after the body encoder, and its error. -/
def Request_body (st : State) : (Bytes × Option Error) × State :=
  match st.r.bodyEncoder with
  | none => (([], none), st)
  | some e => (e.Encode [], { st with log := st.log ++ [Event.bodyEncode e.Name] })

/-- Source lines 203-205 of `Request`. -/
def Request_appendQuery (st : State) (query : String) : State :=
  if len query > 0 then { st with r := { st.r with url := st.r.url ++ ("?" ++ query) } } else st

/-- Source lines 189-206 of `Request`. -/
def Request_query (st : State) : Outcome (Option Error) × State :=
  match st.r.queryEncode with
  | none => (.ret none, st)
  | some q =>
    match isString q.value with
    | .panic => (.panic, st)
    | .ret (s, true) => (.ret none, Request_appendQuery st s)
    | .ret (_, false) =>
      let st1 : State := { st with log := st.log ++ [Event.queryEncode] }
      match q.encodeErr with
      | some e => (.ret (some e), st1)
      | none => (.ret none, Request_appendQuery st1 q.encoded)

/-- Source lines 208-220 of `Request`. -/
def Request_form (st : State) (body : Bytes) : (Bytes × Option Error) × State :=
  match st.r.formEncode with
  | none => ((body, none), st)
  | some f =>
    let st1 : State := { st with log := st.log ++ [Event.formEncode] }
    match f.err with
    | some e => ((body ++ f.written, some e), st1)
    | none => ((body ++ f.written ++ f.closing, none), st1)

/-- Source lines 226-254 of `Request`, on the request that `selectRequest` returned. -/
def Request_finish (st : State) (req : http.Request) :
    Outcome (Option http.Request × Option Error) × State :=
  let req1 : http.Request :=
    match st.r.headerEncode with
    | some _ => { req with Header := clearHeader req.Header }
    | none => req
  let r1 : Req := (GetContext st.r).1
  let req2 : http.Request :=
    match r1.c with
    | some c => req1.WithContext c
    | none => req1
  let log2 : List Event :=
    match r1.c with
    | some c => st.log ++ [Event.withContext c]
    | none => st.log
  let req3 : http.Request := r1.cookies.foldl http.Request.AddCookie req2
  let req4 : http.Request :=
    match r1.formEncode with
    | some f => { req3 with Header := req3.Header.Add "Content-Type" f.contentType }
    | none => req3
  match r1.headerEncode with
  | some h =>
    let log3 := log2 ++ [Event.headerEncode]
    let req5 : http.Request := { req4 with Header := h.apply req4.Header }
    match h.err with
    | some e => (.ret (none, some e), { r := r1, log := log3 })
    | none =>
      match addDefDebug r1 with
      | .panic => (.panic, { r := r1, log := log3 })
      | .ret r2 => (.ret (some (addContextType r2 req5), none), { r := r2, log := log3 })
  | none =>
    match addDefDebug r1 with
    | .panic => (.panic, { r := r1, log := log2 })
    | .ret r2 => (.ret (some (addContextType r2 req4), none), { r := r2, log := log2 })

/-- Source lines 179-255. A nil request with a nil error is not produced by
`selectRequest`; dereferencing it would panic. -/
def Request (env : Env) (st : State) : Outcome (Option http.Request × Option Error) × State :=
  match Request_body st with
  | ((_, some e), st1) => (.ret (none, some e), st1)
  | ((body, none), st1) =>
    match Request_query st1 with
    | (.panic, st2) => (.panic, st2)
    | (.ret (some e), st2) => (.ret (none, some e), st2)
    | (.ret none, st2) =>
      match Request_form st2 body with
      | ((_, some e), st3) => (.ret (none, some e), st3)
      | ((body2, none), st3) =>
        match selectRequest env st3 body2 with
        | ((_, some e), st4) => (.ret (none, some e), st4)
        | ((none, none), st4) => (.panic, st4)
        | ((some req, none), st4) => Request_finish st4 req

/-- Modelled from the spec: `resetBodyAndPrint` of the debug options is not in the source
tree. "The response body is captured and an inspection side-effect (formatting/printing)
runs before any consuming read, then the body is restored so later decoding sees the full
content"; it may fail with an error. -/
def resetBodyAndPrint (env : Env) (req : http.Request) (resp : http.Response) :
    http.Response × Option Error :=
  (resp, env.printErr req resp)

/-- Source lines 270-297. With `openDebug`, `r.g` is dereferenced. -/
def decode (env : Env) (st : State) (req : http.Request) (resp : http.Response) (openDebug : Bool) :
    Outcome (Option Error) × State × http.Response :=
  let hdr : Option Error × State :=
    match st.r.headerDecode with
    | some h => (h.err resp.Header, { st with log := st.log ++ [Event.headerDecode] })
    | none => (none, st)
  match hdr with
  | (some e, st1) => (.ret (some e), st1, resp)
  | (none, st1) =>
    let dbg : Outcome (Option Error) × State × http.Response :=
      if openDebug then
        match st1.r.g with
        | none => (.panic, st1, resp)
        | some _ =>
          ((.ret (resetBodyAndPrint env req resp).2),
            { st1 with log := st1.log ++ [Event.debugPrint] }, (resetBodyAndPrint env req resp).1)
      else (.ret none, st1, resp)
    match dbg with
    | (.panic, st2, resp2) => (.panic, st2, resp2)
    | (.ret (some e), st2, resp2) => (.ret (some e), st2, resp2)
    | (.ret none, st2, resp2) =>
      let bd : Option Error × State × http.Response :=
        match st2.r.bodyDecoder with
        | some d =>
          ((d.Decode resp2.Body).2,
            { st2 with log := st2.log ++ [Event.bodyDecode d.id resp2.Body.data] },
            { resp2 with Body := (d.Decode resp2.Body).1 })
        | none => (none, st2, resp2)
      match bd with
      | (some e, st3, resp3) => (.ret (some e), st3, resp3)
      | (none, st3, resp3) =>
        match st3.r.httpCode with
        | some cell =>
          (.ret none, { st3 with log := st3.log ++ [Event.storeCode cell resp3.StatusCode] }, resp3)
        | none => (.ret none, st3, resp3)

/-- Source line 303. -/
def maxBodySlurpSize : Nat := 4 * (2 <<< 10)

/-- Go `io.CopyN(ioutil.Discard, src, n)`: the number of bytes copied, the error, and the
stream afterwards. Fewer than `n` bytes before the end of the stream give `io.EOF` (or the
error of the stream). -/
def CopyN (src : Body) (n : Nat) : (Nat × Option Error) × Body :=
  if n ≤ src.data.length then ((n, none), { src with data := src.data.drop n })
  else ((src.data.length, some (src.fail.getD Error.EOF)), { src with data := [] })

/-- Source lines 304-314. -/
def clearBody (st : State) (resp : http.Response) : Option Error × State × http.Response :=
  let res := CopyN resp.Body maxBodySlurpSize
  let err : Option Error := if res.1.2 = some Error.EOF then none else res.1.2
  (err, { st with log := st.log ++ [Event.discard (resp.Body.data.take res.1.1)] },
    { resp with Body := res.2 })

/-- Source lines 316-342. `r.g.opt.Debug` and `r.getDataFlow()` dereference `r.g`; the
callback works on the `DataFlow`, which is the request state. -/
def Bind (env : Env) (st : State) (req : http.Request) (resp : http.Response) :
    Outcome (Option Error) × State × http.Response :=
  match st.r.g with
  | none => (.panic, st, resp)
  | some g =>
    match decode env st req resp g.opt.Debug with
    | (.panic, st1, resp1) => (.panic, st1, resp1)
    | (.ret (some e), st1, resp1) => (.ret (some e), st1, resp1)
    | (.ret none, st1, resp1) =>
      let cb : Outcome (Option Error) × State × http.Response :=
        match st1.r.callback with
        | none => (.ret none, st1, resp1)
        | some f =>
          let st2 : State :=
            { r := (env.runCallback f resp1.StatusCode st1.r).1,
              log := st1.log ++ [Event.callback f resp1.StatusCode] }
          match (env.runCallback f resp1.StatusCode st1.r).2 with
          | some e => (.ret (some e), st2, resp1)
          | none => decode env st2 req resp1 false
      match cb with
      | (.panic, st3, resp3) => (.panic, st3, resp3)
      | (.ret (some e), st3, resp3) => (.ret (some e), st3, resp3)
      | (.ret none, st3, resp3) =>
        match st3.r.bodyDecoder with
        | none =>
          ((.ret (clearBody st3 resp3).1), (clearBody st3 resp3).2.1, (clearBody st3 resp3).2.2)
        | some _ => (.ret none, st3, resp3)

/-- Source lines 344-350. -/
def Client (env : Env) (r : Req) : Nat :=
  match r.g with
  | none => env.DefaultClient
  | some g => g.Client

/-- Source lines 352-354: `&r.g.opt` dereferences `r.g`. -/
def getDebugOpt (r : Req) : Outcome DebugOption :=
  match r.g with
  | none => .panic
  | some g => .ret g.opt

/-- Source lines 356-359. -/
def canTrace (r : Req) : Outcome Bool :=
  match getDebugOpt r with
  | .panic => .panic
  | .ret opt => .ret opt.Trace

/-- Modelled from the spec: `startTrace` of the debug options is not in the source tree.
The invocation is "delegated to an injected Do-capable transport"; the tracing decorator
"observes the request/response lifecycle without altering semantics", and "any
transport-level error is surfaced unmodified". -/
def startTrace (env : Env) (_opt : DebugOption) (_trace : Bool) (req : http.Request)
    (client : Nat) : Except Error http.Response :=
  env.clientDo client req

/-- Source lines 370-385 of `Do`: what runs between registering the deferred `Reset` and
the deferred calls themselves; the deferred `resp.Body.Close()` is logged at the end. -/
def Do_body (env : Env) (st : State) : Outcome (Option Error) × State :=
  match Request env st with
  | (.panic, st1) => (.panic, st1)
  | (.ret (_, some e), st1) => (.ret (some e), st1)
  | (.ret (none, none), st1) => (.panic, st1)
  | (.ret (some req, none), st1) =>
    match getDebugOpt st1.r with
    | .panic => (.panic, st1)
    | .ret opt =>
      match canTrace st1.r with
      | .panic => (.panic, st1)
      | .ret tr =>
        let st2 : State :=
          { st1 with log := st1.log ++ [Event.transport (Client env st1.r) req] }
        match startTrace env opt tr req (Client env st1.r) with
        | .error e => (.ret (some e), st2)
        | .ok resp =>
          ((Bind env st2 req resp).1,
            { (Bind env st2 req resp).2.1 with
              log := (Bind env st2 req resp).2.1.log ++ [Event.closeBody] })

/-- Source lines 362-386. A sticky error returns before `Reset` is deferred; otherwise the
deferred `Reset` runs last on every exit, a panic included. -/
def Do (env : Env) (st : State) : Outcome (Option Error) × State :=
  match st.r.Err with
  | some e => (.ret (some e), st)
  | none => ((Do_body env st).1, { (Do_body env st).2 with r := (Do_body env st).2.r.Reset })

/-! ## Observations on the state and the event log -/

/-- The request state with the `url` and `Err` fields replaced. -/
def Req.setUrlErr (r : Req) (u : String) (e : Option Error) : Req := { r with url := u, Err := e }

/-- Two request states that differ at most in the `url` and `Err` fields. -/
def Req.Agree (r r1 : Req) : Prop := r1 = r.setUrlErr r1.url r1.Err


/-- The `Decode` calls on body decoders recorded in a log: decoder and unread body seen. -/
def decodeCalls (log : List Event) : List (Nat × Bytes) :=
  log.filterMap fun ev =>
    match ev with
    | Event.bodyDecode id seen => some (id, seen)
    | _ => none

/-- The contexts attached with `WithContext` recorded in a log. -/
def attachedContexts (log : List Event) : List Context :=
  log.filterMap fun ev =>
    match ev with
    | Event.withContext c => some c
    | _ => none

/-- The URL strings handed to `http.NewRequest` recorded in a log. -/
def newRequestURLs (log : List Event) : List String :=
  log.filterMap fun ev =>
    match ev with
    | Event.newRequest _ url _ => some url
    | _ => none

/-- The number of transport calls recorded in a log. -/
def transportCalls (log : List Event) : Nat :=
  (log.filter fun ev =>
    match ev with
    | Event.transport _ _ => true
    | _ => false).length

/-- The string that a value holds, directly or behind pointers. -/
def stringBehind : Value → Option String
  | Value.String s => some s
  | Value.Ptr e => stringBehind e
  | _ => none

/-- The Content-Type values that `addContextType` adds for a request state: the
default guess for a body encoder named json, xml, yaml or www-form, nothing otherwise. -/
def guessedContentType (r : Req) : List String :=
  match r.bodyEncoder with
  | none => []
  | some e =>
    if e.Name = "json" then ["application/json"]
    else if e.Name = "xml" then ["application/xml"]
    else if e.Name = "yaml" then ["application/x-yaml"]
    else if e.Name = "www-form" then ["application/x-www-form-urlencoded"]
    else []

/-! ## The context resolver as the specification words it -/

/-- The three-way resolver of the specification: the explicit context when one was supplied
and its counter is at least the timeout counter; otherwise a context derived from the
background context when the timeout is positive and its counter is greater than the
explicit-context counter; otherwise no context. -/
def specContextResolver (r : Req) : Option Context :=
  match r.c with
  | some c =>
    if r.ctxIndex ≥ r.timeoutIndex then some c
    else if r.timeout > 0 ∧ r.timeoutIndex > r.ctxIndex then
      some (Context.WithTimeout Context.Background r.timeout)
    else none
  | none =>
    if r.timeout > 0 ∧ r.timeoutIndex > r.ctxIndex then
      some (Context.WithTimeout Context.Background r.timeout)
    else none

/-! ## Sample collaborators and inputs -/

/-- A sample `url.Parse`: it rejects the one string with a blank in the host and splits the
sample URLs used below. -/
def sampleParse (s : String) : Except Error URL :=
  if s = "http://a b" then .error (Error.other "invalid character in host name")
  else if s = "http://example.com" then .ok ⟨"http", "example.com", "", ""⟩
  else if s = "http://example.com?a=1&b=2" then .ok ⟨"http", "example.com", "", "a=1&b=2"⟩
  else .ok ⟨"", "", s, ""⟩

/-- A sample body decoder that reads the whole body. -/
def sampleDecoder (id : Nat) : Decoder :=
  { id := id, consumed := fun b => b.data.length, err := fun _ => none }

/-- A sample response with a two-byte body. -/
def sampleResponse : http.Response :=
  { StatusCode := 200, Header := fun _ => [], Body := { data := [104, 105], fail := none } }

/-- A sample environment: `joinPaths` with an empty first path yields the second, requests
are built from the parsed URL, every client answers with `sampleResponse`, and callback 0
installs body decoder 7. -/
def sampleEnv : Env :=
  { joinPaths := fun a b => a ++ b
    urlParse := sampleParse
    NewRequest := fun m u b =>
      match sampleParse u with
      | .error e => .error e
      | .ok U =>
        .ok { Method := if m = "" then "GET" else m, URL := some U, Header := fun _ => [],
              Body := b, ctx := none }
    clientDo := fun _ _ => .ok sampleResponse
    DefaultClient := 0
    runCallback := fun f _ r =>
      if f = 0 then ({ r with bodyDecoder := some (sampleDecoder 7) }, none) else (r, none)
    printErr := fun _ _ => none }

/-- A sample `Gout` object with debugging off. -/
def sampleGout : Gout := { Client := 1, opt := { Debug := false, Trace := false, ReqBodyType := "" } }

/-- A sample request state as `reqDef` builds it. -/
def sampleReq : Req := reqDef "GET" "example.com" (some sampleGout)

/-- A sample state: explicit context set at counter 1, then a timeout of 5 at counter 2. -/
def timeoutLastReq : Req :=
  { sampleReq with c := some (Context.Caller 3), timeout := 5, ctxIndex := 1, timeoutIndex := 2 }

/-- A sample state with a sticky error and facets set. -/
def stickyReq : Req :=
  { sampleReq with Err := some (Error.other "bad option"), bodyEncoder := some ⟨"json", [1], none⟩ }

/-- A sample state with a timeout of 5 set at counter 1 and nothing else. -/
def timeoutOnlyReq : Req :=
  { sampleReq with timeout := 5, index := 1, timeoutIndex := 1 }

/-- A sample response whose body holds 5000 bytes. -/
def bigResponse : http.Response :=
  { StatusCode := 200, Header := fun _ => [], Body := { data := List.replicate 5000 0, fail := none } }

/-- A sample state with body decoder 1 registered and callback 0 set. -/
def preDecoderReq : Req :=
  { sampleReq with bodyDecoder := some (sampleDecoder 1), callback := some 0 }

/-- A sample state with body decoder 1 registered and callback 1 set, which installs
nothing. -/
def preDecoderIdleReq : Req :=
  { sampleReq with bodyDecoder := some (sampleDecoder 1), callback := some 1 }

/-- A sample state with callback 0 set and no body decoder. -/
def callbackReq : Req := { sampleReq with callback := some 0 }

/-- A sample state: explicit context set at counter 1, then a timeout of 0 at counter 2. -/
def zeroTimeoutReq : Req :=
  { sampleReq with c := some (Context.Caller 3), timeout := 0, ctxIndex := 1, timeoutIndex := 2 }

/-- A sample form facet. -/
def sampleForm : FormSource :=
  { written := [45, 45], err := none, closing := [45], contentType := "multipart/form-data; boundary=b1" }

/-- A sample state with a form encoder and a json body encoder. -/
def formAndJsonReq : Req :=
  { sampleReq with formEncode := some sampleForm, bodyEncoder := some ⟨"json", [123, 125], none⟩ }

/-- A sample state with a form encoder and a header encoder that adds an `X-Test` header. -/
def formAndHeaderReq : Req :=
  { sampleReq with
    formEncode := some sampleForm
    headerEncode := some { apply := fun H => Header.Add H "X-Test" "1", err := none } }

/-- The request that `Request` returns for `formAndHeaderReq` in the sample environment. -/
def formAndHeaderResult : http.Request :=
  { Method := "GET", URL := some ⟨"http", "example.com", "", ""⟩,
    Header := Header.Add (Header.Add (clearHeader fun _ => []) "Content-Type"
      "multipart/form-data; boundary=b1") "X-Test" "1",
    Body := [45, 45, 45], ctx := none }

/-- A sample state as `reqDef` builds it for "example.com", with the literal query
"a=1&b=2" behind a pointer. -/
def literalQueryReq : Req :=
  { sampleReq with queryEncode := some ⟨Value.Ptr (Value.String "a=1&b=2"), none, ""⟩ }

/-- A sample state as `reqDef` builds it, with the host facet set to "a b". -/
def badHostReq : Req := { sampleReq with host := "a b" }

/-- A sample request object without headers. -/
def sampleRequest : http.Request :=
  { Method := "GET", URL := some ⟨"http", "example.com", "", ""⟩, Header := fun _ => [],
    Body := [], ctx := none }


/-! ## Strings -/

theorem HasPrefix_iff (s pre : String) :
    HasPrefix s pre = true ↔ ∃ t : String, s = pre ++ t := by
  unfold HasPrefix
  rw [List.isPrefixOf_iff_prefix]
  constructor
  · rintro ⟨t, ht⟩
    exact ⟨⟨t⟩, String.ext (by simp [ht])⟩
  · rintro ⟨t, rfl⟩
    exact ⟨t.data, by simp⟩

theorem len_pos_iff (s : String) : len s > 0 ↔ s ≠ "" := by
  unfold len
  rcases s with ⟨cs⟩
  cases cs with
  | nil => simp [String.utf8ByteSize, String.utf8ByteSize.go]
  | cons c cs =>
    have hc := Char.utf8Size_pos c
    simp [String.utf8ByteSize, String.utf8ByteSize.go, String.ext_iff]
    omega

/-! ## C1: the later setter wins -/

/-- C1: for a request state holding an explicit context and a positive timeout, GetContext
returns the context derived from the background context with that timeout when
timeoutIndex > ctxIndex, and the explicit context unchanged when ctxIndex > timeoutIndex. -/
theorem GetContext_later_setter_wins (r : Req) (ctx : Context)
    (hc : r.c = some ctx) (ht : r.timeout > 0) :
    (r.timeoutIndex > r.ctxIndex →
      (GetContext r).2 = some (Context.WithTimeout Context.Background r.timeout)) ∧
    (r.ctxIndex > r.timeoutIndex → (GetContext r).2 = some ctx) := by
  constructor
  · intro h
    simp [GetContext, ht, h]
  · intro h
    have h2 : ¬ r.timeoutIndex > r.ctxIndex := by omega
    simp [GetContext, h2, hc]

/-- Witness for C1: an explicit context set at counter 1, a timeout of 5 set at counter 2. -/
theorem GetContext_later_setter_wins_witness :
    (GetContext timeoutLastReq).2 = some (Context.WithTimeout Context.Background 5) :=
  (GetContext_later_setter_wins timeoutLastReq (Context.Caller 3) rfl (by decide)).1 (by decide)

/-! ## C3: URL normalisation -/

/-- C3: modifyURL leaves a string starting with "http://" or "https://" unchanged, puts
"http://127.0.0.1" in front of a string starting with ":" or "/", and puts "http://" in
front of every other string, the empty string included. -/
theorem modifyURL_cases (s : String) :
    ((HasPrefix s "http://" = true ∨ HasPrefix s "https://" = true) → modifyURL s = s) ∧
    ((HasPrefix s ":" = true ∨ HasPrefix s "/" = true) →
      modifyURL s = "http://127.0.0.1" ++ s) ∧
    ((HasPrefix s "http://" = false ∧ HasPrefix s "https://" = false ∧
        HasPrefix s ":" = false ∧ HasPrefix s "/" = false) → modifyURL s = "http://" ++ s) ∧
    modifyURL "" = "http://" := by
  refine ⟨?_, ?_, ?_, by decide⟩
  · rintro (h | h) <;> simp [modifyURL, h]
  · intro h
    have h1 : HasPrefix s "https://" = false := by
      rcases s with ⟨cs⟩
      rcases h with h | h <;>
        · cases cs with
          | nil => simp [HasPrefix] at h
          | cons c cs =>
            simp [HasPrefix] at h
            subst h
            simp [HasPrefix, List.isPrefixOf]
    have h2 : HasPrefix s "http://" = false := by
      rcases s with ⟨cs⟩
      rcases h with h | h <;>
        · cases cs with
          | nil => simp [HasPrefix] at h
          | cons c cs =>
            simp [HasPrefix] at h
            subst h
            simp [HasPrefix, List.isPrefixOf]
    rcases h with h | h
    · simp [modifyURL, h1, h2, h]
    · by_cases h3 : HasPrefix s ":" = true <;> simp [modifyURL, h1, h2, h, h3]
  · rintro ⟨h1, h2, h3, h4⟩
    simp [modifyURL, h1, h2, h3, h4]


/-! ## C5: a sticky error short-circuits `Do` -/

/-- C5: when the Err slot holds an error on entry, Do returns exactly that error and makes
no external call at all (no encoder runs, no request is built, the transport is not
called): the state and its log are left as they were. -/
theorem Do_sticky_error (env : Env) (st : State) (e : Error) (h : st.r.Err = some e) :
    Do env st = (Outcome.ret (some e), st) ∧ (Do env st).2.log = st.log ∧
      transportCalls (Do env st).2.log = transportCalls st.log := by
  have h1 : Do env st = (Outcome.ret (some e), st) := by
    unfold Do
    rw [h]
  exact ⟨h1, by rw [h1], by rw [h1]⟩

/-- Witness for C5: a state with a sticky error and a body encoder, on an empty log. -/
theorem Do_sticky_error_witness :
    (Do sampleEnv ⟨stickyReq, []⟩).2.log = [] :=
  (Do_sticky_error sampleEnv ⟨stickyReq, []⟩ (Error.other "bad option") rfl).2.1

/-! ## C4: what `Do` resets -/

/-- C4, as the code has it: when the Err slot is nil on entry, then after Do (whether it
succeeded, failed in Request, in the transport or in Bind) the fields that Reset assigns
are at their zero value: index, Err, cookies, the form, body, header and query encoders,
the body and header decoders, the status-code sink, the explicit context and the preset
request. -/
theorem Do_resets_send_facets (env : Env) (st : State) (h : st.r.Err = none) :
    (Do env st).2.r.index = 0 ∧ (Do env st).2.r.Err = none ∧ (Do env st).2.r.cookies = [] ∧
    (Do env st).2.r.formEncode = none ∧ (Do env st).2.r.bodyEncoder = none ∧
    (Do env st).2.r.bodyDecoder.isNone = true ∧ (Do env st).2.r.httpCode = none ∧
    (Do env st).2.r.headerDecode.isNone = true ∧ (Do env st).2.r.headerEncode.isNone = true ∧
    (Do env st).2.r.queryEncode = none ∧ (Do env st).2.r.c = none ∧
    (Do env st).2.r.req.isNone = true := by
  unfold Do
  rw [h]
  simp [Req.Reset]

/-- Witness for C4: the sample state with a timeout, sent through the sample environment. -/
theorem Do_resets_send_facets_witness :
    (Do sampleEnv ⟨timeoutOnlyReq, []⟩).2.r.index = 0 ∧
    (Do sampleEnv ⟨timeoutOnlyReq, []⟩).2.r.c = none :=
  ⟨(Do_resets_send_facets sampleEnv ⟨timeoutOnlyReq, []⟩ rfl).1,
    (Do_resets_send_facets sampleEnv ⟨timeoutOnlyReq, []⟩ rfl).2.2.2.2.2.2.2.2.2.2.1⟩

/-- Counterexample for C4: after Do on a state with a sticky error the error is still set,
and after a successful Do on a state with method, url, a timeout and its counter set,
these are all still set: the state is not back at its zero value. -/
theorem Do_not_zero_counterexample :
    (Do sampleEnv ⟨stickyReq, []⟩).2.r.Err = some (Error.other "bad option") ∧
    (Do sampleEnv ⟨stickyReq, []⟩).2.r.bodyEncoder = some ⟨"json", [1], none⟩ ∧
    (Do sampleEnv ⟨timeoutOnlyReq, []⟩).2.r.method = "GET" ∧
    (Do sampleEnv ⟨timeoutOnlyReq, []⟩).2.r.url = "http://example.com" ∧
    (Do sampleEnv ⟨timeoutOnlyReq, []⟩).2.r.timeout = 5 ∧
    (Do sampleEnv ⟨timeoutOnlyReq, []⟩).2.r.timeoutIndex = 1 := by
  refine ⟨rfl, rfl, ?_, ?_, ?_, ?_⟩ <;> rfl

/-! ## C9: the drain cap -/

theorem maxBodySlurpSize_eq : maxBodySlurpSize = 8192 := by decide

theorem clearBody_log (st : State) (resp : http.Response) :
    (clearBody st resp).2.1.log =
      st.log ++ [Event.discard (resp.Body.data.take (min resp.Body.data.length 8192))] := by
  unfold clearBody CopyN
  rw [maxBodySlurpSize_eq]
  by_cases h : 8192 ≤ resp.Body.data.length
  · simp [h]
  · have h2 : resp.Body.data.length ≤ 8192 := by omega
    simp [h, h2]

theorem clearBody_err_of_short (st : State) (resp : http.Response)
    (h : resp.Body.data.length < 8192) (hf : resp.Body.fail = none) :
    (clearBody st resp).1 = none := by
  unfold clearBody CopyN
  rw [maxBodySlurpSize_eq]
  have h2 : ¬ 8192 ≤ resp.Body.data.length := by omega
  simp [h2, hf]

/-- C9, at a body of 5000 bytes with no body decoder: clearBody, and Bind through it,
reads and discards all 5000 bytes, more than 4096, and returns no error; the cap of the
code is 8192. -/
theorem clearBody_reads_past_4096 :
    (clearBody ⟨sampleReq, []⟩ bigResponse).1 = none ∧
    (clearBody ⟨sampleReq, []⟩ bigResponse).2.1.log = [Event.discard (List.replicate 5000 0)] ∧
    (Bind sampleEnv ⟨sampleReq, []⟩ sampleRequest bigResponse).2.1.log =
      [Event.discard (List.replicate 5000 0)] ∧
    (List.replicate 5000 (0 : Nat)).length = 5000 ∧
    maxBodySlurpSize = 8192 := by
  have hlen : (List.replicate 5000 (0 : Nat)).length = 5000 := List.length_replicate _ _
  have hdata : bigResponse.Body.data = List.replicate 5000 0 := rfl
  have hlog : (clearBody ⟨sampleReq, []⟩ bigResponse).2.1.log =
      [Event.discard (List.replicate 5000 0)] := by
    rw [clearBody_log, hdata, hlen, List.take_replicate]
    rfl
  have hbind : (Bind sampleEnv ⟨sampleReq, []⟩ sampleRequest bigResponse).2.1.log =
      (clearBody ⟨sampleReq, []⟩ bigResponse).2.1.log := rfl
  refine ⟨?_, hlog, hbind.trans hlog, hlen, maxBodySlurpSize_eq⟩
  apply clearBody_err_of_short
  · rw [hdata, hlen]; decide
  · rfl

/-! ## C8: the decoder installed by the callback -/

/-- C8, at a state with body decoder 1 registered before the callback runs and a two-byte
response body: the decode pass that Bind runs before the callback hands both bytes to
decoder 1, and decoder 7, which callback 0 installs, is then called on a body with nothing
left to read. With callback 1, which installs nothing, decoder 1 is called twice, the
second time on the emptied body. -/
theorem Bind_preregistered_decoder_takes_body :
    sampleResponse.Body.data = [104, 105] ∧
    (sampleEnv.runCallback 0 200 preDecoderReq).1.bodyDecoder.map Decoder.id = some 7 ∧
    decodeCalls (Bind sampleEnv ⟨preDecoderReq, []⟩ sampleRequest sampleResponse).2.1.log =
      [(1, [104, 105]), (7, [])] ∧
    (sampleEnv.runCallback 1 200 preDecoderIdleReq).1.bodyDecoder.map Decoder.id = some 1 ∧
    decodeCalls (Bind sampleEnv ⟨preDecoderIdleReq, []⟩ sampleRequest sampleResponse).2.1.log =
      [(1, [104, 105]), (1, [])] := by
  refine ⟨rfl, by decide, by decide, by decide, by decide⟩

theorem decodeCalls_append (l1 l2 : List Event) :
    decodeCalls (l1 ++ l2) = decodeCalls l1 ++ decodeCalls l2 := by
  simp [decodeCalls, List.filterMap_append]

/-- First decode pass without a body decoder: when header decoding and the debug print do
not fail, it returns nil, reads nothing from the body, and records no `Decode` call. -/
theorem decode_without_bodyDecoder (env : Env) (st : State) (req : http.Request)
    (resp : http.Response) (dbg : Bool)
    (hnone : st.r.bodyDecoder.isNone = true)
    (hhdr : ∀ h, st.r.headerDecode = some h → h.err resp.Header = none)
    (hg : dbg = true → st.r.g.isSome = true)
    (hdbg : dbg = true → env.printErr req resp = none) :
    ∃ log, decode env st req resp dbg = (Outcome.ret none, ⟨st.r, log⟩, resp) ∧
      decodeCalls log = decodeCalls st.log := by
  rcases st with ⟨r, log⟩
  simp only [Option.isNone_iff_eq_none] at hnone
  simp only at hnone hhdr hg hdbg
  unfold decode
  cases hh : r.headerDecode with
  | none =>
    cases dbg with
    | false =>
      cases hc : r.httpCode <;> simp [hnone, hc, decodeCalls_append, decodeCalls]
    | true =>
      have hg2 := hg rfl
      rw [Option.isSome_iff_exists] at hg2
      obtain ⟨g, hg2⟩ := hg2
      cases hc : r.httpCode <;>
        simp [hnone, hc, hg2, resetBodyAndPrint, hdbg rfl, decodeCalls_append, decodeCalls]
  | some h =>
    have he := hhdr h hh
    cases dbg with
    | false =>
      cases hc : r.httpCode <;> simp [hnone, hc, he, decodeCalls_append, decodeCalls]
    | true =>
      have hg2 := hg rfl
      rw [Option.isSome_iff_exists] at hg2
      obtain ⟨g, hg2⟩ := hg2
      cases hc : r.httpCode <;>
        simp [hnone, hc, he, hg2, resetBodyAndPrint, hdbg rfl, decodeCalls_append, decodeCalls]

/-- Second decode pass with a body decoder: when header decoding does not fail, `Decode`
is called once, on the body as it stands. -/
theorem decode_with_bodyDecoder (env : Env) (st : State) (req : http.Request)
    (resp : http.Response) (d : Decoder)
    (hd : st.r.bodyDecoder = some d)
    (hhdr : ∀ h, st.r.headerDecode = some h → h.err resp.Header = none) :
    decodeCalls (decode env st req resp false).2.1.log =
        decodeCalls st.log ++ [(d.id, resp.Body.data)] ∧
      (decode env st req resp false).2.1.r = st.r ∧
      (decode env st req resp false).1 ≠ Outcome.panic := by
  rcases st with ⟨r, log⟩
  simp only at hd hhdr
  unfold decode
  cases hh : r.headerDecode with
  | none =>
    cases he : (d.Decode resp.Body).2 <;> cases hc : r.httpCode <;>
      simp [hd, hc, he, decodeCalls_append, decodeCalls]
  | some h =>
    have hok := hhdr h hh
    cases he : (d.Decode resp.Body).2 <;> cases hc : r.httpCode <;>
      simp [hd, hc, he, hok, decodeCalls_append, decodeCalls]

/-- The path on which the installed decoder does get the body: when no body decoder is
registered before the callback runs, the first pass (header decoding, debug print) and the
callback succeed, the callback installs a body decoder, and the repeated header decoding
succeeds, Bind calls Decode exactly once, on the installed decoder, and that call sees the
full, unaltered body. -/
theorem Bind_callback_decoder_once (env : Env) (st : State) (req : http.Request)
    (resp : http.Response) (g : Gout) (f : Nat) (d : Decoder)
    (hg : st.r.g = some g) (hcb : st.r.callback = some f)
    (hnone : st.r.bodyDecoder.isNone = true)
    (hhdr : ∀ h, st.r.headerDecode = some h → h.err resp.Header = none)
    (hdbg : g.opt.Debug = true → env.printErr req resp = none)
    (hok : (env.runCallback f resp.StatusCode st.r).2 = none)
    (hinst : (env.runCallback f resp.StatusCode st.r).1.bodyDecoder = some d)
    (hhdr2 : ∀ h, (env.runCallback f resp.StatusCode st.r).1.headerDecode = some h →
      h.err resp.Header = none) :
    decodeCalls (Bind env st req resp).2.1.log =
      decodeCalls st.log ++ [(d.id, resp.Body.data)] := by
  obtain ⟨log1, h1, hl1⟩ := decode_without_bodyDecoder env st req resp g.opt.Debug hnone hhdr
    (fun _ => by simp [hg]) hdbg
  have h2 := decode_with_bodyDecoder env
    ⟨(env.runCallback f resp.StatusCode st.r).1, log1 ++ [Event.callback f resp.StatusCode]⟩
    req resp d hinst hhdr2
  obtain ⟨h2a, h2b, h2c⟩ := h2
  have hl2 : decodeCalls (log1 ++ [Event.callback f resp.StatusCode]) = decodeCalls st.log := by
    rw [decodeCalls_append, hl1]
    simp [decodeCalls]
  rw [hl2] at h2a
  unfold Bind
  simp only [hg, h1, hcb, hok]
  generalize hres : decode env
    ⟨(env.runCallback f resp.StatusCode st.r).1, log1 ++ [Event.callback f resp.StatusCode]⟩
    req resp false = res at h2a h2b h2c
  rcases res with ⟨out, st3, resp3⟩
  simp only at h2a h2b h2c
  cases out with
  | panic => exact absurd rfl h2c
  | ret e =>
    cases e with
    | some e => simpa using h2a
    | none =>
      simp only [h2b, hinst]
      exact h2a

/-- An instance of `Bind_callback_decoder_once`: callback 0 installs decoder 7, which is
called once on both bytes. -/
theorem Bind_callback_decoder_once_witness :
    decodeCalls (Bind sampleEnv ⟨callbackReq, []⟩ sampleRequest sampleResponse).2.1.log =
      [(7, [104, 105])] :=
  Bind_callback_decoder_once sampleEnv ⟨callbackReq, []⟩ sampleRequest sampleResponse
    sampleGout 0 (sampleDecoder 7) rfl rfl rfl (by intro h hh; cases hh) (fun _ => rfl) rfl rfl
    (by intro h hh; cases hh)

/-! ## Stages of `Request` -/

theorem attachedContexts_append (l1 l2 : List Event) :
    attachedContexts (l1 ++ l2) = attachedContexts l1 ++ attachedContexts l2 := by
  simp [attachedContexts, List.filterMap_append]

theorem GetContext_fst (r : Req) : (GetContext r).1 = { r with c := (GetContext r).2 } := by
  unfold GetContext
  split_ifs <;> rfl

theorem foldl_AddCookie_ctx (cs : List Cookie) (q : http.Request) :
    (cs.foldl http.Request.AddCookie q).ctx = q.ctx := by
  induction cs generalizing q with
  | nil => rfl
  | cons c cs ih =>
    rw [List.foldl_cons, ih]
    unfold http.Request.AddCookie
    dsimp only
    split_ifs <;> rfl

theorem foldl_AddCookie_header (cs : List Cookie) (q : http.Request) (k : String)
    (hk : k ≠ "Cookie") : (cs.foldl http.Request.AddCookie q).Header k = q.Header k := by
  induction cs generalizing q with
  | nil => rfl
  | cons c cs ih =>
    rw [List.foldl_cons, ih]
    unfold http.Request.AddCookie
    dsimp only
    split_ifs <;> simp [Header.Set, hk]

theorem addContextType_ctx (r : Req) (q : http.Request) : (addContextType r q).ctx = q.ctx := by
  unfold addContextType
  cases r.bodyEncoder with
  | none => rfl
  | some e => simp only; split_ifs <;> rfl

theorem addDefDebug_bodyEncoder (r r2 : Req) (h : addDefDebug r = Outcome.ret r2) :
    r2.bodyEncoder = r.bodyEncoder := by
  unfold addDefDebug at h
  cases hb : r.bodyEncoder with
  | none =>
    rw [hb] at h
    simp only [Outcome.ret.injEq] at h
    rw [← h, hb]
  | some e =>
    rw [hb] at h
    simp only [setReqBodyType] at h
    cases hg : r.g with
    | none =>
      rw [hg] at h
      split_ifs at h
      simp only [Outcome.ret.injEq] at h
      rw [← h, hb]
    | some g =>
      rw [hg] at h
      split_ifs at h <;> simp only [Outcome.ret.injEq] at h <;> rw [← h] <;> exact hb

/-- What `Request_finish` does with the context: the context that `GetContext` resolves is
attached when there is one, and the request keeps its own otherwise. -/
theorem Request_finish_ctx (st st1 : State) (q req : http.Request)
    (h : Request_finish st q = (Outcome.ret (some req, none), st1)) :
    req.ctx = (match (GetContext st.r).2 with
      | some c => some c
      | none => q.ctx) ∧
    attachedContexts st1.log = attachedContexts st.log ++ (GetContext st.r).2.toList := by
  rcases st with ⟨r, log⟩
  have e1 : (GetContext r).1.headerEncode = r.headerEncode := by rw [GetContext_fst]
  have e2 : (GetContext r).1.c = (GetContext r).2 := rfl
  unfold Request_finish at h
  dsimp only at h
  rw [e1, e2] at h
  generalize hd : addDefDebug (GetContext r).1 = out at h
  cases hc : (GetContext r).2 <;> cases hH : r.headerEncode <;> simp only [hc, hH] at h
  · cases out with
    | panic => simp at h
    | ret r2 =>
      simp only [Prod.mk.injEq, Outcome.ret.injEq, Option.some.injEq, and_true] at h
      obtain ⟨h1, h2⟩ := h
      subst h1 h2
      cases hf : (GetContext r).1.formEncode <;>
        simp [addContextType_ctx, foldl_AddCookie_ctx]
  · rename_i hs
    cases he : hs.err with
    | some e => simp [he] at h
    | none =>
      simp only [he] at h
      cases out with
      | panic => simp at h
      | ret r2 =>
        simp only [Prod.mk.injEq, Outcome.ret.injEq, Option.some.injEq, and_true] at h
        obtain ⟨h1, h2⟩ := h
        subst h1 h2
        cases hf : (GetContext r).1.formEncode <;>
          simp [addContextType_ctx, foldl_AddCookie_ctx, attachedContexts_append,
            attachedContexts]
  · cases out with
    | panic => simp at h
    | ret r2 =>
      simp only [Prod.mk.injEq, Outcome.ret.injEq, Option.some.injEq, and_true] at h
      obtain ⟨h1, h2⟩ := h
      subst h1 h2
      cases hf : (GetContext r).1.formEncode <;>
        simp [addContextType_ctx, foldl_AddCookie_ctx, attachedContexts_append,
          attachedContexts, http.Request.WithContext]
  · rename_i hs
    cases he : hs.err with
    | some e => simp [he] at h
    | none =>
      simp only [he] at h
      cases out with
      | panic => simp at h
      | ret r2 =>
        simp only [Prod.mk.injEq, Outcome.ret.injEq, Option.some.injEq, and_true] at h
        obtain ⟨h1, h2⟩ := h
        subst h1 h2
        cases hf : (GetContext r).1.formEncode <;>
          simp [addContextType_ctx, foldl_AddCookie_ctx, attachedContexts_append,
            attachedContexts, http.Request.WithContext]

theorem Req.Agree.refl (r : Req) : r.Agree r := by
  cases r; rfl

theorem Req.Agree.trans (a b c : Req) (h1 : a.Agree b) (h2 : b.Agree c) : a.Agree c := by
  unfold Req.Agree at *
  rw [h2, h1]
  rfl

theorem Req.Agree.of_url (r : Req) (u : String) : r.Agree { r with url := u } := by
  cases r; rfl

theorem Req.Agree.of_Err (r : Req) (e : Option Error) : r.Agree { r with Err := e } := by
  cases r; rfl

theorem Req.Agree.GetContext (a b : Req) (h : a.Agree b) : (GetContext b).2 = (GetContext a).2 := by
  unfold Req.Agree at h
  rw [h]
  unfold dataflow.GetContext Req.setUrlErr
  dsimp only
  split_ifs <;> rfl

theorem Request_body_state (st : State) :
    st.r.Agree (Request_body st).2.r ∧
      attachedContexts (Request_body st).2.log = attachedContexts st.log := by
  unfold Request_body
  cases st.r.bodyEncoder <;>
    simp [attachedContexts_append, attachedContexts, Req.Agree.refl]

theorem Request_query_state (st : State) :
    st.r.Agree (Request_query st).2.r ∧
      attachedContexts (Request_query st).2.log = attachedContexts st.log := by
  unfold Request_query
  cases st.r.queryEncode with
  | none => simp [Req.Agree.refl]
  | some q =>
    simp only
    cases isString q.value with
    | panic => simp [Req.Agree.refl]
    | ret p =>
      rcases p with ⟨s, b⟩
      cases b with
      | true =>
        simp only [Request_appendQuery]
        split_ifs <;> simp [Req.Agree.refl, Req.Agree.of_url]
      | false =>
        simp only [Request_appendQuery]
        cases q.encodeErr with
        | some e => simp [attachedContexts_append, attachedContexts, Req.Agree.refl]
        | none =>
          simp only
          split_ifs <;>
            simp [attachedContexts_append, attachedContexts, Req.Agree.refl, Req.Agree.of_url]

theorem Request_form_state (st : State) (body : Bytes) :
    st.r.Agree (Request_form st body).2.r ∧
      attachedContexts (Request_form st body).2.log = attachedContexts st.log := by
  unfold Request_form
  cases st.r.formEncode with
  | none => simp [Req.Agree.refl]
  | some f =>
    cases he : f.err <;> simp [he, attachedContexts_append, attachedContexts, Req.Agree.refl]

theorem selectRequest_host_state (env : Env) (st : State) (q : http.Request) :
    st.r.Agree (selectRequest_host env st q).2.r ∧
      attachedContexts (selectRequest_host env st q).2.log = attachedContexts st.log ∧
      (selectRequest_host env st q).1.2 = none ∧
      ∃ q1, (selectRequest_host env st q).1.1 = some q1 ∧ q1.Header = q.Header ∧
        q1.ctx = q.ctx := by
  unfold selectRequest_host
  split_ifs
  · simp only
    cases env.urlParse (modifyURL (env.joinPaths "" st.r.host)) with
    | error e => simp [attachedContexts_append, attachedContexts, Req.Agree.of_Err]
    | ok U =>
      cases q.URL <;>
        simp [attachedContexts_append, attachedContexts, Req.Agree.of_Err, Req.Agree.refl]
  · simp [Req.Agree.refl]

theorem selectRequest_deferred_state (env : Env) (st : State) (q : http.Request) :
    st.r.Agree (selectRequest_deferred env st q).2.r ∧
      attachedContexts (selectRequest_deferred env st q).2.log = attachedContexts st.log ∧
      ∃ q1, (selectRequest_deferred env st q).1.1 = some q1 ∧ q1.Header = q.Header ∧
        q1.ctx = q.ctx := by
  unfold selectRequest_deferred
  simp only
  generalize hq : (if len st.r.method > 0 then
    ({ q with Method := st.r.method } : http.Request) else q) = q0
  have hq0 : q0.Header = q.Header ∧ q0.ctx = q.ctx := by
    rw [← hq]
    split_ifs <;> exact ⟨rfl, rfl⟩
  by_cases h2 : len st.r.url > 0
  · simp only [h2, if_true]
    cases env.urlParse st.r.url with
    | error e => simp [attachedContexts_append, attachedContexts, Req.Agree.of_Err, hq0]
    | ok u =>
      simp only
      obtain ⟨a, b, _, q1, c1, c2, c3⟩ := selectRequest_host_state env
        { st with log := st.log ++ [Event.urlParse st.r.url] } { q0 with URL := some u }
      refine ⟨a, ?_, q1, c1, c2.trans hq0.1, c3.trans hq0.2⟩
      rw [b]
      simp [attachedContexts_append, attachedContexts]
  · simp only [h2, if_false]
    obtain ⟨a, b, _, q1, c1, c2, c3⟩ := selectRequest_host_state env st q0
    exact ⟨a, b, q1, c1, c2.trans hq0.1, c3.trans hq0.2⟩

theorem selectRequest_state (env : Env) (st : State) (body : Bytes) :
    st.r.Agree (selectRequest env st body).2.r ∧
      attachedContexts (selectRequest env st body).2.log = attachedContexts st.log ∧
      ∀ q, (selectRequest env st body).1.1 = some q →
        (∀ p, st.r.req = some p → q.Header = p.Header ∧ q.ctx = p.ctx) ∧
        (st.r.req = none → ∃ q0, env.NewRequest st.r.method st.r.url body = Except.ok q0 ∧
          q.Header = q0.Header ∧ q.ctx = q0.ctx) := by
  unfold selectRequest
  cases hp : st.r.req with
  | some p =>
    simp only
    obtain ⟨a, b, q1, c1, c2, c3⟩ := selectRequest_deferred_state env st p
    refine ⟨a, b, ?_⟩
    intro q hq
    rw [c1] at hq
    cases hq
    constructor
    · intro p1 hp1
      cases hp1
      exact ⟨c2, c3⟩
    · intro hn
      cases hn
  | none =>
    simp only
    cases hn : env.NewRequest st.r.method st.r.url body with
    | error e => simp [attachedContexts_append, attachedContexts, Req.Agree.of_Err]
    | ok q0 =>
      simp only
      obtain ⟨a, b, q1, c1, c2, c3⟩ := selectRequest_deferred_state env
        { st with log := st.log ++ [Event.newRequest st.r.method st.r.url body] } q0
      refine ⟨a, ?_, ?_⟩
      · rw [b]
        simp [attachedContexts_append, attachedContexts]
      · intro q hq
        rw [c1] at hq
        cases hq
        constructor
        · intro p1 hp1
          cases hp1
        · intro _
          exact ⟨q0, rfl, c2, c3⟩

/-- A successful `Request` is a successful `Request_finish` on the request returned by
`selectRequest`, in a state that differs from the initial one in `url` and `Err` at most. -/
theorem Request_reaches_finish (env : Env) (st st1 : State) (req : http.Request)
    (h : Request env st = (Outcome.ret (some req, none), st1)) :
    ∃ st4 q, Request_finish st4 q = (Outcome.ret (some req, none), st1) ∧ st.r.Agree st4.r ∧
      attachedContexts st4.log = attachedContexts st.log ∧
      (∀ p, st.r.req = some p → q.Header = p.Header ∧ q.ctx = p.ctx) ∧
      (st.r.req = none → ∃ m u b q0, env.NewRequest m u b = Except.ok q0 ∧
        q.Header = q0.Header ∧ q.ctx = q0.ctx) := by
  unfold Request at h
  obtain ⟨a1, l1⟩ := Request_body_state st
  generalize Request_body st = rb at h a1 l1
  rcases rb with ⟨⟨body, eb⟩, s1⟩
  cases eb with
  | some e => simp at h
  | none =>
    simp only at h a1 l1
    obtain ⟨a2, l2⟩ := Request_query_state s1
    generalize Request_query s1 = rq at h a2 l2
    rcases rq with ⟨oq, s2⟩
    cases oq with
    | panic => simp at h
    | ret eq =>
      cases eq with
      | some e => simp at h
      | none =>
        simp only at h a2 l2
        obtain ⟨a3, l3⟩ := Request_form_state s2 body
        generalize Request_form s2 body = rf at h a3 l3
        rcases rf with ⟨⟨body2, ef⟩, s3⟩
        cases ef with
        | some e => simp at h
        | none =>
          simp only at h a3 l3
          obtain ⟨a4, l4, hq⟩ := selectRequest_state env s3 body2
          generalize selectRequest env s3 body2 = rs at h a4 l4 hq
          rcases rs with ⟨⟨oq, es⟩, s4⟩
          cases es with
          | some e => simp at h
          | none =>
            cases oq with
            | none => simp at h
            | some q =>
              simp only at h a4 l4 hq
              have a13 : st.r.Agree s3.r :=
                Req.Agree.trans _ _ _ (Req.Agree.trans _ _ _ a1 a2) a3
              have hreq : s3.r.req = st.r.req := by
                unfold Req.Agree at a13
                rw [a13]
                rfl
              refine ⟨s4, q, h, Req.Agree.trans _ _ _ a13 a4, ?_, ?_, ?_⟩
              · rw [l4, l3, l2, l1]
              · intro p hp
                exact (hq q rfl).1 p (hreq.trans hp)
              · intro hn
                obtain ⟨q0, h0, h1, h2⟩ := (hq q rfl).2 (hreq.trans hn)
                exact ⟨_, _, _, q0, h0, h1, h2⟩

/-! ## C2: the context that `Request` attaches -/

/-- C2, as the code has it: when Request returns a request, the context it attaches is the
context derived from the background context with the timeout if timeout > 0 and
timeoutIndex > ctxIndex; otherwise the explicit context if one was supplied, whatever the
two counters; otherwise none. Exactly that context is attached, and the returned request
carries it. -/
theorem Request_attaches_resolved_context (env : Env) (st st1 : State) (req : http.Request)
    (h : Request env st = (Outcome.ret (some req, none), st1)) :
    attachedContexts st1.log = attachedContexts st.log ++
      (if st.r.timeout > 0 ∧ st.r.timeoutIndex > st.r.ctxIndex then
        some (Context.WithTimeout Context.Background st.r.timeout) else st.r.c).toList ∧
    ∀ c, (if st.r.timeout > 0 ∧ st.r.timeoutIndex > st.r.ctxIndex then
        some (Context.WithTimeout Context.Background st.r.timeout) else st.r.c) = some c →
      req.ctx = some c := by
  obtain ⟨st4, q, hfin, hag, hlog, _, _⟩ := Request_reaches_finish env st st1 req h
  obtain ⟨hctx, hatt⟩ := Request_finish_ctx st4 st1 q req hfin
  rw [Req.Agree.GetContext st.r st4.r hag] at hctx hatt
  have hres : (GetContext st.r).2 =
      (if st.r.timeout > 0 ∧ st.r.timeoutIndex > st.r.ctxIndex then
        some (Context.WithTimeout Context.Background st.r.timeout) else st.r.c) := by
    unfold GetContext
    dsimp only
    split_ifs <;> rfl
  rw [hres] at hctx hatt
  refine ⟨by rw [hatt, hlog], ?_⟩
  intro c hc
  rw [hc] at hctx
  exact hctx

/-- Witness for C2: the explicit context set at counter 1 with a timeout of 0 at counter 2
is attached. -/
theorem Request_attaches_resolved_context_witness :
    attachedContexts (Request sampleEnv ⟨zeroTimeoutReq, []⟩).2.log = [Context.Caller 3] :=
  (Request_attaches_resolved_context sampleEnv ⟨zeroTimeoutReq, []⟩
    (Request sampleEnv ⟨zeroTimeoutReq, []⟩).2 (sampleRequest.WithContext (Context.Caller 3))
    (by rfl)).1

/-- Counterexample for C2: with an explicit context at counter 1 and a timeout of 0 at
counter 2, the three-way resolver of the specification yields no context, while Request
attaches the explicit context and returns a request that carries it. -/
theorem Request_context_counterexample :
    specContextResolver zeroTimeoutReq = none ∧
    attachedContexts (Request sampleEnv ⟨zeroTimeoutReq, []⟩).2.log = [Context.Caller 3] ∧
    (match (Request sampleEnv ⟨zeroTimeoutReq, []⟩).1 with
      | Outcome.ret (some req, none) => req.ctx
      | _ => none) = some (Context.Caller 3) := by
  refine ⟨by decide, by decide, by decide⟩

/-! ## C7: the Content-Type of a request with a form encoder -/

theorem addContextType_header (r : Req) (q : http.Request) :
    (addContextType r q).Header "Content-Type" =
      q.Header "Content-Type" ++ guessedContentType r := by
  unfold addContextType guessedContentType
  cases r.bodyEncoder with
  | none => simp
  | some e =>
    simp only
    split_ifs <;> simp [Header.Add]

theorem guessedContentType_congr (a b : Req) (h : b.bodyEncoder = a.bodyEncoder) :
    guessedContentType b = guessedContentType a := by
  unfold guessedContentType
  rw [h]

/-- What `Request_finish` does with Content-Type when a form encoder is set. -/
theorem Request_finish_contentType (st st1 : State) (q req : http.Request) (f : FormSource)
    (h : Request_finish st q = (Outcome.ret (some req, none), st1))
    (hf : st.r.formEncode = some f) :
    (st.r.headerEncode.isNone = true → req.Header "Content-Type" =
      q.Header "Content-Type" ++ [f.contentType] ++ guessedContentType st.r) ∧
    (∀ hs, st.r.headerEncode = some hs → ∃ H0 : Header, H0 "Content-Type" = [f.contentType] ∧
      req.Header "Content-Type" = hs.apply H0 "Content-Type" ++ guessedContentType st.r) := by
  rcases st with ⟨r, log⟩
  have e1 : (GetContext r).1.headerEncode = r.headerEncode := by rw [GetContext_fst]
  have e2 : (GetContext r).1.formEncode = r.formEncode := by rw [GetContext_fst]
  have e3 : (GetContext r).1.bodyEncoder = r.bodyEncoder := by rw [GetContext_fst]
  have hne : "Content-Type" ≠ "Cookie" := by decide
  simp only at hf
  unfold Request_finish at h
  dsimp only at h
  rw [e1, e2, hf] at h
  generalize hd : addDefDebug (GetContext r).1 = out at h
  have hg : ∀ r2, out = Outcome.ret r2 → guessedContentType r2 = guessedContentType r := by
    intro r2 h2
    rw [h2] at hd
    exact guessedContentType_congr _ _ ((addDefDebug_bodyEncoder _ _ hd).trans e3)
  cases hH : r.headerEncode with
  | none =>
    simp only [hH] at h
    cases out with
    | panic => simp at h
    | ret r2 =>
      simp only [Prod.mk.injEq, Outcome.ret.injEq, Option.some.injEq, and_true] at h
      obtain ⟨h1, h2⟩ := h
      subst h1 h2
      refine ⟨fun _ => ?_, fun hs hh => by cases hh⟩
      rw [addContextType_header, hg r2 rfl]
      cases hc : (GetContext r).1.c <;>
        simp [Header.Add, foldl_AddCookie_header _ _ _ hne, http.Request.WithContext]
  | some hs =>
    simp only [hH] at h
    cases he : hs.err with
    | some e => simp [he] at h
    | none =>
      simp only [he] at h
      cases out with
      | panic => simp at h
      | ret r2 =>
        simp only [Prod.mk.injEq, Outcome.ret.injEq, Option.some.injEq, and_true] at h
        obtain ⟨h1, h2⟩ := h
        subst h1 h2
        refine ⟨fun hn => by simp at hn, fun hs1 hh => ?_⟩
        cases hh
        rw [addContextType_header, hg r2 rfl]
        cases hc : (GetContext r).1.c
        · exact ⟨_, by simp [Header.Add, foldl_AddCookie_header _ _ _ hne, clearHeader], rfl⟩
        · exact ⟨_, by simp [Header.Add, foldl_AddCookie_header _ _ _ hne, clearHeader,
            http.Request.WithContext], rfl⟩

/-- C7, as the code has it: when a form encoder is set and Request returns a request, the
form encoder's content-type value is added after the header was cleared and before the
header encoder runs and the default guess is appended. With a header encoder, the
Content-Type values are what the header encoder makes of a header whose only Content-Type
value is the form's, followed by the default guess for a json, xml, yaml or www-form body
encoder; if the header encoder leaves Content-Type untouched they are the form's value
followed by that guess. Without a header encoder they are the values the preset or newly
built request carried, the form's value, and that guess. -/
theorem Request_form_content_type (env : Env) (st st1 : State) (req : http.Request)
    (f : FormSource)
    (h : Request env st = (Outcome.ret (some req, none), st1))
    (hf : st.r.formEncode = some f) :
    (∀ hs, st.r.headerEncode = some hs →
      (∃ H0 : Header, H0 "Content-Type" = [f.contentType] ∧
        req.Header "Content-Type" = hs.apply H0 "Content-Type" ++ guessedContentType st.r) ∧
      ((∀ H : Header, hs.apply H "Content-Type" = H "Content-Type") →
        req.Header "Content-Type" = [f.contentType] ++ guessedContentType st.r)) ∧
    (st.r.headerEncode.isNone = true →
      ∃ base : List String,
        req.Header "Content-Type" = base ++ [f.contentType] ++ guessedContentType st.r ∧
        (∀ p, st.r.req = some p → base = p.Header "Content-Type") ∧
        (st.r.req = none → ∃ m u b q0, env.NewRequest m u b = Except.ok q0 ∧
          base = q0.Header "Content-Type")) := by
  obtain ⟨st4, q, hfin, hag, _, hpre, hnew⟩ := Request_reaches_finish env st st1 req h
  have hf4 : st4.r.formEncode = st.r.formEncode := by
    unfold Req.Agree at hag
    rw [hag]
    rfl
  have hh4 : st4.r.headerEncode = st.r.headerEncode := by
    unfold Req.Agree at hag
    rw [hag]
    rfl
  have hb4 : st4.r.bodyEncoder = st.r.bodyEncoder := by
    unfold Req.Agree at hag
    rw [hag]
    rfl
  obtain ⟨hno, hyes⟩ := Request_finish_contentType st4 st1 q req f hfin (hf4.trans hf)
  rw [guessedContentType_congr st.r st4.r hb4, hh4] at hno
  constructor
  · intro hs hhs
    obtain ⟨H0, hH0, hreq⟩ := hyes hs (hh4.trans hhs)
    rw [guessedContentType_congr st.r st4.r hb4] at hreq
    refine ⟨⟨H0, hH0, hreq⟩, ?_⟩
    intro hkeep
    rw [hreq, hkeep, hH0]
  · intro hn
    refine ⟨q.Header "Content-Type", hno hn, ?_, ?_⟩
    · intro p hp
      rw [(hpre p hp).1]
    · intro hnone
      obtain ⟨m, u, b, q0, h0, h1, _⟩ := hnew hnone
      exact ⟨m, u, b, q0, h0, by rw [h1]⟩

/-- Witness for C7: a form encoder and a header encoder that adds `X-Test`; the header is
cleared, and the form's value is the only Content-Type value. -/
theorem Request_form_content_type_witness :
    formAndHeaderResult.Header "Content-Type" = ["multipart/form-data; boundary=b1"] :=
  ((Request_form_content_type sampleEnv ⟨formAndHeaderReq, []⟩
    (Request sampleEnv ⟨formAndHeaderReq, []⟩).2 formAndHeaderResult sampleForm (by rfl) rfl).1
    { apply := fun H => Header.Add H "X-Test" "1", err := none } rfl).2
    (fun H => by simp [Header.Add])

/-- Counterexample for C7: with a form encoder and a json body encoder, the request that
Request returns carries two Content-Type values, the form's and the default guess. -/
theorem Request_form_content_type_counterexample :
    (match (Request sampleEnv ⟨formAndJsonReq, []⟩).1 with
      | Outcome.ret (some req, none) => req.Header "Content-Type"
      | _ => []) = ["multipart/form-data; boundary=b1", "application/json"] := by
  decide

/-! ## C10: the URL of a request with a literal query -/

theorem newRequestURLs_append (l1 l2 : List Event) :
    newRequestURLs (l1 ++ l2) = newRequestURLs l1 ++ newRequestURLs l2 := by
  simp [newRequestURLs, List.filterMap_append]

theorem isString_of_stringBehind (v : Value) (s : String) (h : stringBehind v = some s) :
    isString v = Outcome.ret (if HasPrefix s "?" then sliceFrom1 s else s, true) := by
  induction v with
  | String t =>
    simp only [stringBehind, Option.some.injEq] at h
    subst h
    rfl
  | NamedString t => simp [stringBehind] at h
  | Ptr e ih =>
    simp only [stringBehind] at h
    simp only [isString]
    exact ih h
  | Invalid => simp [stringBehind] at h
  | Other n => simp [stringBehind] at h

theorem strip_question (s q : String)
    (hs : s = "?" ++ q ∨ (HasPrefix s "?" = false ∧ q = s)) :
    (if HasPrefix s "?" then sliceFrom1 s else s) = q := by
  rcases hs with h | ⟨h1, h2⟩
  · subst h
    have hp : HasPrefix ("?" ++ q) "?" = true := (HasPrefix_iff _ _).2 ⟨q, rfl⟩
    rw [if_pos hp]
    apply String.ext
    simp [sliceFrom1]
  · simp [h1, h2]

theorem Request_query_literal (st : State) (qs : QuerySource) (s q : String)
    (hq : st.r.queryEncode = some qs) (hv : stringBehind qs.value = some s)
    (hs : s = "?" ++ q ∨ (HasPrefix s "?" = false ∧ q = s)) :
    (Request_query st).1 = Outcome.ret none ∧
    (Request_query st).2.log = st.log ∧
    (Request_query st).2.r.url = (if q = "" then st.r.url else st.r.url ++ "?" ++ q) ∧
    (Request_query st).2.r.req = st.r.req ∧
    (Request_query st).2.r.method = st.r.method := by
  unfold Request_query
  rw [hq]
  simp only
  rw [isString_of_stringBehind _ _ hv, strip_question s q hs]
  simp only [Request_appendQuery]
  by_cases hq0 : q = ""
  · have hl : ¬ len q > 0 := by
      rw [len_pos_iff]
      simp [hq0]
    rw [if_neg hl]
    simp [hq0]
  · have hl : len q > 0 := (len_pos_iff q).2 hq0
    simp [hl, hq0, String.append_assoc]

theorem Request_body_ok (st : State) (hbody : ∀ e, st.r.bodyEncoder = some e → e.err = none) :
    ∃ body log1, Request_body st = ((body, none), ⟨st.r, log1⟩) ∧
      newRequestURLs log1 = newRequestURLs st.log := by
  unfold Request_body
  cases hb : st.r.bodyEncoder with
  | none => exact ⟨_, _, rfl, rfl⟩
  | some e =>
    refine ⟨[] ++ e.written, st.log ++ [Event.bodyEncode e.Name], ?_, ?_⟩
    · simp [Encoder.Encode, hbody e hb]
    · simp [newRequestURLs_append, newRequestURLs]

theorem Request_form_ok (st : State) (body : Bytes)
    (hform : ∀ f, st.r.formEncode = some f → f.err = none) :
    ∃ body2 log1, Request_form st body = ((body2, none), ⟨st.r, log1⟩) ∧
      newRequestURLs log1 = newRequestURLs st.log := by
  unfold Request_form
  cases hf : st.r.formEncode with
  | none => exact ⟨_, _, rfl, rfl⟩
  | some f =>
    refine ⟨body ++ f.written ++ f.closing, st.log ++ [Event.formEncode], ?_, ?_⟩
    · simp [hform f hf]
    · simp [newRequestURLs_append, newRequestURLs]

theorem selectRequest_host_url (env : Env) (st : State) (q : http.Request) :
    (selectRequest_host env st q).2.r.url = st.r.url ∧
      newRequestURLs (selectRequest_host env st q).2.log = newRequestURLs st.log := by
  unfold selectRequest_host
  split_ifs
  · simp only
    cases env.urlParse (modifyURL (env.joinPaths "" st.r.host)) with
    | error e => simp [newRequestURLs_append, newRequestURLs]
    | ok U => cases q.URL <;> simp [newRequestURLs_append, newRequestURLs]
  · simp

theorem selectRequest_deferred_url (env : Env) (st : State) (q : http.Request) :
    (selectRequest_deferred env st q).2.r.url = st.r.url ∧
      newRequestURLs (selectRequest_deferred env st q).2.log = newRequestURLs st.log := by
  unfold selectRequest_deferred
  simp only
  generalize (if len st.r.method > 0 then
    ({ q with Method := st.r.method } : http.Request) else q) = q0
  by_cases h2 : len st.r.url > 0
  · simp only [h2, if_true]
    cases env.urlParse st.r.url with
    | error e => simp [newRequestURLs_append, newRequestURLs]
    | ok u =>
      simp only
      obtain ⟨a, b⟩ := selectRequest_host_url env
        { st with log := st.log ++ [Event.urlParse st.r.url] } { q0 with URL := some u }
      refine ⟨a, ?_⟩
      rw [b]
      simp [newRequestURLs_append, newRequestURLs]
  · simp only [h2, if_false]
    exact selectRequest_host_url env st q0

theorem selectRequest_url (env : Env) (st : State) (body : Bytes) :
    (selectRequest env st body).2.r.url = st.r.url ∧
      (st.r.req = none → newRequestURLs (selectRequest env st body).2.log =
        newRequestURLs st.log ++ [st.r.url]) ∧
      (st.r.req.isSome = true → newRequestURLs (selectRequest env st body).2.log =
        newRequestURLs st.log) := by
  unfold selectRequest
  cases hp : st.r.req with
  | some p =>
    simp only
    exact ⟨(selectRequest_deferred_url env st p).1, (by intro hn; cases hn),
      fun _ => (selectRequest_deferred_url env st p).2⟩
  | none =>
    simp only
    cases env.NewRequest st.r.method st.r.url body with
    | error e => simp [newRequestURLs_append, newRequestURLs]
    | ok q0 =>
      simp only
      obtain ⟨a, b⟩ := selectRequest_deferred_url env
        { st with log := st.log ++ [Event.newRequest st.r.method st.r.url body] } q0
      refine ⟨a, fun _ => ?_, (by intro hn; simp at hn)⟩
      rw [b]
      simp [newRequestURLs_append, newRequestURLs]

theorem Request_body_urls (st : State) :
    (Request_body st).2.r = st.r ∧
      newRequestURLs (Request_body st).2.log = newRequestURLs st.log := by
  unfold Request_body
  cases st.r.bodyEncoder <;> simp [newRequestURLs_append, newRequestURLs]

theorem Request_form_urls (st : State) (body : Bytes) :
    (Request_form st body).2.r = st.r ∧
      newRequestURLs (Request_form st body).2.log = newRequestURLs st.log := by
  unfold Request_form
  cases st.r.formEncode with
  | none => simp
  | some f => cases he : f.err <;> simp [he, newRequestURLs_append, newRequestURLs]

theorem addDefDebug_url (r r2 : Req) (h : addDefDebug r = Outcome.ret r2) : r2.url = r.url := by
  unfold addDefDebug at h
  cases hb : r.bodyEncoder with
  | none =>
    rw [hb] at h
    simp only [Outcome.ret.injEq] at h
    rw [← h]
  | some e =>
    rw [hb] at h
    simp only [setReqBodyType] at h
    cases hg : r.g with
    | none =>
      rw [hg] at h
      split_ifs at h
      simp only [Outcome.ret.injEq] at h
      rw [← h]
    | some g =>
      rw [hg] at h
      split_ifs at h <;> simp only [Outcome.ret.injEq] at h <;> rw [← h]

theorem Request_finish_url (st : State) (q : http.Request) :
    (Request_finish st q).2.r.url = st.r.url ∧
      newRequestURLs (Request_finish st q).2.log = newRequestURLs st.log := by
  rcases st with ⟨r, log⟩
  have e1 : (GetContext r).1.url = r.url := by rw [GetContext_fst]
  unfold Request_finish
  dsimp only
  generalize hd : addDefDebug (GetContext r).1 = out
  have hu : ∀ r2, out = Outcome.ret r2 → r2.url = r.url := by
    intro r2 h2
    rw [h2] at hd
    exact (addDefDebug_url _ _ hd).trans e1
  cases hc : (GetContext r).1.c <;> cases hH : (GetContext r).1.headerEncode
  · cases out with
    | panic => simp [e1]
    | ret r2 => simp [hu r2 rfl]
  · rename_i hs
    cases he : hs.err with
    | some e => simp [he, e1, newRequestURLs_append, newRequestURLs]
    | none =>
      cases out with
      | panic => simp [he, e1, newRequestURLs_append, newRequestURLs]
      | ret r2 => simp [he, hu r2 rfl, newRequestURLs_append, newRequestURLs]
  · cases out with
    | panic => simp [e1, newRequestURLs_append, newRequestURLs]
    | ret r2 => simp [hu r2 rfl, newRequestURLs_append, newRequestURLs]
  · rename_i hs
    cases he : hs.err with
    | some e => simp [he, e1, newRequestURLs_append, newRequestURLs]
    | none =>
      cases out with
      | panic => simp [he, e1, newRequestURLs_append, newRequestURLs]
      | ret r2 => simp [he, hu r2 rfl, newRequestURLs_append, newRequestURLs]

/-- When the encoders do not fail, the literal query ends up in the url field, and without
a preset request `http.NewRequest` is called once, with that URL. -/
theorem Request_literal_query_reached (env : Env) (st : State) (qs : QuerySource) (u s q : String)
    (hurl : st.r.url = modifyURL u)
    (hq : st.r.queryEncode = some qs) (hv : stringBehind qs.value = some s)
    (hs : s = "?" ++ q ∨ (HasPrefix s "?" = false ∧ q = s))
    (hbody : ∀ e, st.r.bodyEncoder = some e → e.err = none)
    (hform : ∀ f, st.r.formEncode = some f → f.err = none) :
    (Request env st).2.r.url = (if q = "" then modifyURL u else modifyURL u ++ "?" ++ q) ∧
    (st.r.req = none → newRequestURLs (Request env st).2.log = newRequestURLs st.log ++
      [if q = "" then modifyURL u else modifyURL u ++ "?" ++ q]) := by
  unfold Request
  obtain ⟨body, log1, hb, hl1⟩ := Request_body_ok st hbody
  rw [hb]
  simp only
  obtain ⟨q1, q2, q3, q4, _⟩ := Request_query_literal ⟨st.r, log1⟩ qs s q hq hv hs
  obtain ⟨qa, _⟩ := Request_query_state ⟨st.r, log1⟩
  generalize Request_query ⟨st.r, log1⟩ = rq at q1 q2 q3 q4 qa
  rcases rq with ⟨oq, s2⟩
  simp only at q1 q2 q3 q4 qa
  subst q1
  simp only
  have hf2 : s2.r.formEncode = st.r.formEncode := by
    unfold Req.Agree at qa
    rw [qa]
    rfl
  obtain ⟨body2, log3, hfm, hl3⟩ := Request_form_ok s2 body (fun f hf => hform f (hf2.symm.trans hf))
  rw [hfm]
  simp only
  obtain ⟨su, sn, _⟩ := selectRequest_url env ⟨s2.r, log3⟩ body2
  simp only at su sn
  rw [q4] at sn
  rw [hl3, q2, hl1, q3, hurl] at sn
  rw [q3, hurl] at su
  generalize selectRequest env ⟨s2.r, log3⟩ body2 = rs at su sn
  rcases rs with ⟨⟨oq, es⟩, s4⟩
  simp only at su sn
  cases es with
  | some e =>
    simp only
    exact ⟨su, sn⟩
  | none =>
    cases oq with
    | none =>
      simp only
      exact ⟨su, sn⟩
    | some q0 =>
      simp only
      obtain ⟨fu, fl⟩ := Request_finish_url s4 q0
      rw [fu, fl]
      exact ⟨su, sn⟩

/-- Whatever the encoders do, `Request` hands no other URL to `http.NewRequest`. -/
theorem Request_literal_query_only (env : Env) (st : State) (qs : QuerySource) (u s q : String)
    (hurl : st.r.url = modifyURL u)
    (hq : st.r.queryEncode = some qs) (hv : stringBehind qs.value = some s)
    (hs : s = "?" ++ q ∨ (HasPrefix s "?" = false ∧ q = s)) :
    ∃ l, newRequestURLs (Request env st).2.log = newRequestURLs st.log ++ l ∧
      (l = [] ∨ l = [if q = "" then modifyURL u else modifyURL u ++ "?" ++ q]) := by
  unfold Request
  obtain ⟨b1, b2⟩ := Request_body_urls st
  generalize Request_body st = rb at b1 b2
  rcases rb with ⟨⟨body, eb⟩, s1⟩
  simp only at b1 b2
  cases eb with
  | some e => exact ⟨[], by simp [b2], Or.inl rfl⟩
  | none =>
    simp only
    obtain ⟨q1, q2, q3, q4, _⟩ := Request_query_literal s1 qs s q (by rw [b1]; exact hq) hv hs
    generalize Request_query s1 = rq at q1 q2 q3 q4
    rcases rq with ⟨oq, s2⟩
    simp only at q1 q2 q3 q4
    subst q1
    simp only
    obtain ⟨f1, f2⟩ := Request_form_urls s2 body
    generalize Request_form s2 body = rf at f1 f2
    rcases rf with ⟨⟨body2, ef⟩, s3⟩
    simp only at f1 f2
    cases ef with
    | some e => exact ⟨[], by simp [f2, q2, b2], Or.inl rfl⟩
    | none =>
      simp only
      obtain ⟨su, sn, sp⟩ := selectRequest_url env s3 body2
      rw [f1, q3, b1, hurl] at su sn
      rw [f1] at sp
      rw [f2, q2, b2] at sn sp
      have hl : ∃ l, newRequestURLs (selectRequest env s3 body2).2.log =
          newRequestURLs st.log ++ l ∧
          (l = [] ∨ l = [if q = "" then modifyURL u else modifyURL u ++ "?" ++ q]) := by
        cases hr : s2.r.req with
        | none => exact ⟨_, sn hr, Or.inr rfl⟩
        | some p => exact ⟨[], by simp [sp (by simp [hr])], Or.inl rfl⟩
      generalize selectRequest env s3 body2 = rs at hl
      rcases rs with ⟨⟨oq, es⟩, s4⟩
      simp only at hl
      cases es with
      | some e =>
        simp only
        exact hl
      | none =>
        cases oq with
        | none =>
          simp only
          exact hl
        | some q0 =>
          simp only
          rw [(Request_finish_url s4 q0).2]
          exact hl

/-- C10: for a request state whose url is modifyURL(u), as reqDef builds it, and whose query
facet is a string s or a pointer to it, let q be s without one leading "?". Request hands
no URL to http.NewRequest other than modifyURL(u) ++ "?" ++ q when q is non-empty and
modifyURL(u) when q is empty; and when the body and form encoders do not fail, that string
is what Request leaves in the url field (which the URL of a preset request is parsed from)
and, without a preset request, what http.NewRequest is called with, exactly once. Nothing
is merged into a query already in u. -/
theorem Request_literal_query_url (env : Env) (st : State) (qs : QuerySource) (u s q : String)
    (hurl : st.r.url = modifyURL u)
    (hq : st.r.queryEncode = some qs) (hv : stringBehind qs.value = some s)
    (hs : s = "?" ++ q ∨ (HasPrefix s "?" = false ∧ q = s)) :
    (∃ l, newRequestURLs (Request env st).2.log = newRequestURLs st.log ++ l ∧
      (l = [] ∨ l = [if q = "" then modifyURL u else modifyURL u ++ "?" ++ q])) ∧
    ((∀ e, st.r.bodyEncoder = some e → e.err = none) →
      (∀ f, st.r.formEncode = some f → f.err = none) →
      (Request env st).2.r.url = (if q = "" then modifyURL u else modifyURL u ++ "?" ++ q) ∧
      (st.r.req = none → newRequestURLs (Request env st).2.log = newRequestURLs st.log ++
        [if q = "" then modifyURL u else modifyURL u ++ "?" ++ q])) :=
  ⟨Request_literal_query_only env st qs u s q hurl hq hv hs,
    fun hbody hform => Request_literal_query_reached env st qs u s q hurl hq hv hs hbody hform⟩

/-- Witness for C10: u = "example.com" with the literal query "a=1&b=2" gives the URL
"http://example.com?a=1&b=2". -/
theorem Request_literal_query_url_witness :
    (Request sampleEnv ⟨literalQueryReq, []⟩).2.r.url = "http://example.com?a=1&b=2" ∧
    newRequestURLs (Request sampleEnv ⟨literalQueryReq, []⟩).2.log =
      ["http://example.com?a=1&b=2"] :=
  ⟨((Request_literal_query_url sampleEnv ⟨literalQueryReq, []⟩
      ⟨Value.Ptr (Value.String "a=1&b=2"), none, ""⟩ "example.com" "a=1&b=2" "a=1&b=2"
      rfl rfl rfl (Or.inr ⟨by decide, rfl⟩)).2
      (by intro e h; cases h) (by intro f h; cases h)).1,
    ((Request_literal_query_url sampleEnv ⟨literalQueryReq, []⟩
      ⟨Value.Ptr (Value.String "a=1&b=2"), none, ""⟩ "example.com" "a=1&b=2" "a=1&b=2"
      rfl rfl rfl (Or.inr ⟨by decide, rfl⟩)).2
      (by intro e h; cases h) (by intro f h; cases h)).2 rfl⟩

/-! ## C6: a host that does not parse -/

/-- The host block on a parse failure: the error is stored in the Err slot, and the block
still yields the request with a nil error. -/
theorem selectRequest_host_parse_failure (env : Env) (st : State) (q : http.Request)
    (e : Error) (hhost : len st.r.host > 0)
    (hparse : env.urlParse (modifyURL (env.joinPaths "" st.r.host)) = Except.error e) :
    (selectRequest_host env st q).1 = (some q, none) ∧
      (selectRequest_host env st q).2.r.Err = some e := by
  unfold selectRequest_host
  simp [hhost, hparse]

/-- C6, at the host "a b", whose normalised form "http://a b" does not parse: selectRequest
stores the parse error in the Err slot but returns a request and a nil error, Request
returns a request and a nil error, and Do calls the transport once and returns nil. -/
theorem selectRequest_host_parse_error_lost :
    sampleEnv.urlParse (modifyURL (sampleEnv.joinPaths "" badHostReq.host)) =
      Except.error (Error.other "invalid character in host name") ∧
    (selectRequest sampleEnv ⟨badHostReq, []⟩ []).1.1.isSome = true ∧
    (selectRequest sampleEnv ⟨badHostReq, []⟩ []).1.2 = none ∧
    (selectRequest sampleEnv ⟨badHostReq, []⟩ []).2.r.Err =
      some (Error.other "invalid character in host name") ∧
    (match (Request sampleEnv ⟨badHostReq, []⟩).1 with
      | Outcome.ret (some _, none) => true
      | _ => false) = true ∧
    transportCalls (Do sampleEnv ⟨badHostReq, []⟩).2.log = 1 ∧
    (match (Do sampleEnv ⟨badHostReq, []⟩).1 with
      | Outcome.ret none => true
      | _ => false) = true := by
  refine ⟨rfl, by decide, by decide, by decide, by decide, by decide, by decide⟩

end dataflow
